import Mathlib

/-!
Shallow embedding of `gmsh2VTU` from `docs/workspace/utils.py` (netgen-examples).

The mesh source (the gmsh model) is modelled as a structure of query results:
node tags and flat coordinates, the per-type 2-D element blocks returned by
`getElements(2)`, the physical groups of dimension 2, and the two query
functions `getEntitiesForPhysicalGroup` and the per-entity element tags.
Coordinates and the produced scalar field are rationals (Python floats are
treated as exact arithmetic here).  Fallible Python code (KeyError from the
dict lookup, ValueError from `min([])`, IndexError from `[0]` on an empty
list) is modelled with `Option`.
-/

namespace NetgenExamples

/-- Cell types emitted into the VTK unstructured grid
(`vtkTriangle` / `vtkQuad`). -/
inductive CellType where
  | triangle
  | quad
deriving DecidableEq, Repr

/-- The mesh source interface, one snapshot per conversion:
`getNodes()` gives `nodeTags` and the flat `coords`;
`getElements(2)` gives the per-type blocks `(elementType, elementTags,
elementNodeTags)`; `getPhysicalGroups(2)` gives `physicalGroups`;
`getEntitiesForPhysicalGroup(dim, tag)` is `entitiesForPhysicalGroup`;
`getElements(dim, entityTag)` (first block's tags) is `entityElementTags`. -/
structure GmshModel where
  nodeTags : List Int
  coords : List ℚ
  elemBlocks : List (Nat × List Int × List Int)
  physicalGroups : List (Nat × Int)
  entitiesForPhysicalGroup : Nat → Int → List Int
  entityElementTags : Nat → Int → List Int

/-- `nodeTagToIndex = {nodeTag: idx for idx, nodeTag in enumerate(nodeTags)}`:
a Python dict built by insert-or-replace over the enumerated list, so a
lookup returns the index of the last occurrence of the tag, `none` when the
tag is absent (KeyError). -/
def nodeTagToIndex (nodeTags : List Int) (t : Int) : Option Nat :=
  nodeTags.enum.foldl (fun acc p => if p.2 = t then some p.1 else acc) none

/-- `orderedElemNodeTags = [nodeTagToIndex[nodeTag] for nodeTag in
elemNodeTags]`; a missing tag raises KeyError, aborting the conversion. -/
def orderedElemNodeTags (nodeTags : List Int) : List Int → Option (List Nat)
  | [] => some []
  | t :: ts =>
    match nodeTagToIndex nodeTags t, orderedElemNodeTags nodeTags ts with
    | some i, some rest => some (i :: rest)
    | _, _ => none

/-- The `vtk_points` loop: `InsertNextPoint(coords[3i], coords[3i+1],
coords[3i+2])` for `i in range(len(nodeTags))`. -/
def vtk_points (nodeTags : List Int) (coords : List ℚ) : List (ℚ × ℚ × ℚ) :=
  (List.range nodeTags.length).map fun i =>
    (coords.getD (3 * i) 0, coords.getD (3 * i + 1) 0, coords.getD (3 * i + 2) 0)

/-- The flattened sequence of `(elemTag, groupTag)` assignments performed by
the nested loops over `getPhysicalGroups(2)`, the group's entities, and each
entity's elements, in processing order. -/
def physicalGroupAssignments (m : GmshModel) : List (Int × Int) :=
  m.physicalGroups.flatMap fun p =>
    (m.entitiesForPhysicalGroup p.1 p.2).flatMap fun ent =>
      (m.entityElementTags p.1 ent).map fun e => (e, p.2)

/-- `physicalGroupMap[elemTag] = tag`: dict insert-or-replace over the
assignment sequence, so the last write wins. -/
def physicalGroupMap (m : GmshModel) (e : Int) : Option Int :=
  (physicalGroupAssignments m).foldl
    (fun acc p => if p.1 = e then some p.2 else acc) none

/-- `region = physicalGroupMap.get(elemTags[i], -1)` accumulated over the
element loop: raw region values, one per element tag, in element order. -/
def regionValues (m : GmshModel) (elemTags : List Int) : List Int :=
  elemTags.map fun e => (physicalGroupMap m e).getD (-1)

/-- Normalization of the raw region values.  `min`/`max` of an empty list
raise ValueError (`none`); `min == max` collapses to the constant 1.0 field;
otherwise `normalized = 1 - (region - min) / (max - min)`. -/
def normalizedRegions (rv : List Int) : Option (List ℚ) :=
  match rv.min?, rv.max? with
  | some mn, some mx =>
      if mn = mx then
        some (rv.map fun _ => (1 : ℚ))
      else
        some (rv.map fun r : ℤ => 1 - ((r : ℚ) - (mn : ℚ)) / ((mx : ℚ) - (mn : ℚ)))
  | _, _ => none

/-- The cell-emission loop: for `i in range(len(elemTags))`, a `vtkQuad`
over slice `[4i : 4(i+1)]` when `elemType == 3`, a `vtkTriangle` over slice
`[3i : 3(i+1)]` when `elemType == 2`, and silently nothing otherwise. -/
def buildCells (elemType : Nat) (n : Nat) (ordered : List Nat) :
    List (CellType × List Nat) :=
  (List.range n).foldl
    (fun acc i =>
      if elemType = 3 then
        acc ++ [(CellType.quad, ((ordered.drop (4 * i)).take 4))]
      else if elemType = 2 then
        acc ++ [(CellType.triangle, ((ordered.drop (3 * i)).take 3))]
      else acc)
    []

/-- The returned unstructured grid: point set, cell list, and the values of
the `"Region"` cell-data array. -/
structure VTUGrid where
  points : List (ℚ × ℚ × ℚ)
  cells : List (CellType × List Nat)
  regionField : List ℚ
deriving DecidableEq, Repr

/-- The body of `gmsh2VTU` once the first per-type block has been selected:
remap connectivity through the node index (KeyError, i.e. `none`, on a
missing node), build the points and cells, resolve and normalize the region
values (ValueError on an empty element list), and return the grid. -/
def convertBlock (m : GmshModel) (elemType : Nat)
    (elemTags elemNodeTags : List Int) : Option VTUGrid :=
  (orderedElemNodeTags m.nodeTags elemNodeTags).bind fun ordered =>
    (normalizedRegions (regionValues m elemTags)).map fun nr =>
      { points := vtk_points m.nodeTags m.coords
        cells := buildCells elemType elemTags.length ordered
        regionField := nr }

/-- `gmsh2VTU`: the whole conversion.  The code reads only the *first*
per-type element block (`all2DElements[0][0]`, `all2DElements[1][0]`,
`all2DElements[2][0]`; IndexError, i.e. `none`, when there is no block). -/
def gmsh2VTU (m : GmshModel) : Option VTUGrid :=
  m.elemBlocks.head?.bind fun b => convertBlock m b.1 b.2.1 b.2.2

/-! ### Concrete meshes used as test inputs -/

/-- A mesh whose only 2-D element block has element type 1 (a two-node
line), outside the supported set {2 (triangle), 3 (quadrilateral)}. -/
def lineMesh : GmshModel where
  nodeTags := [1, 2]
  coords := [0, 0, 0, 1, 0, 0]
  elemBlocks := [(1, [7], [1, 2])]
  physicalGroups := []
  entitiesForPhysicalGroup := fun _ _ => []
  entityElementTags := fun _ _ => []

/-- The spec's example mesh: a unit-square quadrilateral on nodes
10,11,12,13 in physical group 5, and a triangle on nodes 10,11,14 in
physical group 2.  The quad block and the triangle block are distinct
per-type blocks of `getElements(2)`. -/
def exampleMesh : GmshModel where
  nodeTags := [10, 11, 12, 13, 14]
  coords := [0, 0, 0, 1, 0, 0, 1, 1, 0, 0, 1, 0, 2, 0, 0]
  elemBlocks := [(3, [100], [10, 11, 12, 13]), (2, [101], [10, 11, 14])]
  physicalGroups := [(2, 5), (2, 2)]
  entitiesForPhysicalGroup := fun d t =>
    if d = 2 then if t = 5 then [1] else if t = 2 then [2] else [] else []
  entityElementTags := fun d ent =>
    if d = 2 then if ent = 1 then [100] else if ent = 2 then [101] else []
    else []

/-- A mesh whose triangle references node 2, absent from the node list. -/
def missingNodeMesh : GmshModel where
  nodeTags := [1]
  coords := [0, 0, 0]
  elemBlocks := [(2, [7], [1, 2, 3])]
  physicalGroups := []
  entitiesForPhysicalGroup := fun _ _ => []
  entityElementTags := fun _ _ => []

/-- A mesh whose first block is a well-formed triangle but whose second
per-type block (a quadrilateral) references node 99, absent from the node
list. -/
def laterBlockMissingMesh : GmshModel where
  nodeTags := [1, 2, 3]
  coords := [0, 0, 0, 1, 0, 0, 0, 1, 0]
  elemBlocks := [(2, [7], [1, 2, 3]), (3, [200], [1, 2, 3, 99])]
  physicalGroups := []
  entitiesForPhysicalGroup := fun _ _ => []
  entityElementTags := fun _ _ => []

/-- A single triangle with no physical groups at all. -/
def triMesh : GmshModel where
  nodeTags := [1, 2, 3]
  coords := [0, 0, 0, 1, 0, 0, 0, 1, 0]
  elemBlocks := [(2, [7], [1, 2, 3])]
  physicalGroups := []
  entitiesForPhysicalGroup := fun _ _ => []
  entityElementTags := fun _ _ => []

/-- The grid `gmsh2VTU` produces for `triMesh`. -/
def triGrid : VTUGrid where
  points := [(0, 0, 0), (1, 0, 0), (0, 1, 0)]
  cells := [(CellType.triangle, [0, 1, 2])]
  regionField := [1]

/-- A mesh whose first 2-D element block exists but contains no elements. -/
def emptyBlockMesh : GmshModel where
  nodeTags := [1]
  coords := [0, 0, 0]
  elemBlocks := [(2, ([] : List Int), ([] : List Int))]
  physicalGroups := []
  entitiesForPhysicalGroup := fun _ _ => []
  entityElementTags := fun _ _ => []

/-! ### Helper lemmas -/

/-- `List.min?` of an integer list characterized as the least member. -/
lemma int_min?_iff {xs : List Int} {a : Int} :
    xs.min? = some a ↔ a ∈ xs ∧ ∀ b ∈ xs, a ≤ b := by
  have anti : Std.Antisymm (fun x1 x2 : Int => x1 ≤ x2) :=
    ⟨fun h1 h2 => le_antisymm h1 h2⟩
  exact List.min?_eq_some_iff (fun a => le_refl a) min_choice (fun _ _ _ => le_min_iff)

/-- `List.max?` of an integer list characterized as the greatest member. -/
lemma int_max?_iff {xs : List Int} {a : Int} :
    xs.max? = some a ↔ a ∈ xs ∧ ∀ b ∈ xs, b ≤ a := by
  have anti : Std.Antisymm (fun x1 x2 : Int => x1 ≤ x2) :=
    ⟨fun h1 h2 => le_antisymm h1 h2⟩
  exact List.max?_eq_some_iff (fun a => le_refl a) max_choice (fun _ _ _ => max_le_iff)

/-- On a nonempty list all of whose members equal `c`, `min?` and `max?`
both return `c`. -/
lemma min?_max?_of_all_eq {l : List Int} {c : Int} (hne : l ≠ [])
    (h : ∀ x ∈ l, x = c) : l.min? = some c ∧ l.max? = some c := by
  have hc : c ∈ l := by
    cases l with
    | nil => exact absurd rfl hne
    | cons x xs => exact (h x (List.mem_cons_self x xs)) ▸ List.mem_cons_self x xs
  constructor
  · exact int_min?_iff.mpr ⟨hc, fun b hb => (h b hb).ge⟩
  · exact int_max?_iff.mpr ⟨hc, fun b hb => (h b hb).le⟩

/-- A tag that has no index forces `orderedElemNodeTags` to `none`
(the KeyError propagates out of the comprehension). -/
lemma orderedElemNodeTags_eq_none (nodeTags : List Int) (l : List Int) (t : Int)
    (ht : t ∈ l) (hf : nodeTagToIndex nodeTags t = none) :
    orderedElemNodeTags nodeTags l = none := by
  induction l with
  | nil => cases ht
  | cons x xs ih =>
    rcases List.mem_cons.mp ht with rfl | hmem
    · simp [orderedElemNodeTags, hf]
    · rw [orderedElemNodeTags, ih hmem]
      cases nodeTagToIndex nodeTags x <;> rfl

/-- The dict-building fold leaves the accumulator alone when the key is
absent from the enumerated list. -/
lemma enumFold_of_not_mem (l : List Int) (t : Int) (k : Nat) (acc : Option Nat)
    (h : t ∉ l) :
    (List.enumFrom k l).foldl (fun acc p => if p.2 = t then some p.1 else acc) acc
      = acc := by
  induction l generalizing k acc with
  | nil => rfl
  | cons x xs ih =>
    rw [List.enumFrom_cons, List.foldl_cons]
    have hx : x ≠ t := fun hxt => h (hxt ▸ List.mem_cons_self x xs)
    rw [if_neg hx]
    exact ih (k + 1) acc (fun hm => h (List.mem_cons_of_mem x hm))

/-- With no duplicate tags, the dict-building fold returns the offset
position of the (unique) occurrence of the key. -/
lemma enumFold_of_nodup (l : List Int) (t : Int) (k : Nat) (acc : Option Nat)
    (hnd : l.Nodup) (ht : t ∈ l) :
    (List.enumFrom k l).foldl (fun acc p => if p.2 = t then some p.1 else acc) acc
      = some (k + List.indexOf t l) := by
  induction l generalizing k acc with
  | nil => cases ht
  | cons x xs ih =>
    rw [List.enumFrom_cons, List.foldl_cons]
    obtain ⟨hx, hxs⟩ := List.nodup_cons.mp hnd
    by_cases hxt : x = t
    · subst hxt
      rw [if_pos rfl, List.indexOf_cons_self]
      exact (enumFold_of_not_mem xs x (k + 1) (some k) hx).trans (by rw [Nat.add_zero])
    · have htxs : t ∈ xs := by
        rcases List.mem_cons.mp ht with rfl | hm
        · exact absurd rfl hxt
        · exact hm
      rw [if_neg hxt, ih (k + 1) acc hxs htxs, List.indexOf_cons_ne xs hxt]
      exact congrArg some (by omega)

/-- With no duplicate tags, `nodeTagToIndex` is the position of the tag in
the list, `none` for tags outside it. -/
lemma nodeTagToIndex_eq_of_nodup (l : List Int) (t : Int) (hnd : l.Nodup) :
    nodeTagToIndex l t = if t ∈ l then some (List.indexOf t l) else none := by
  unfold nodeTagToIndex
  rw [List.enum_eq_enumFrom]
  by_cases ht : t ∈ l
  · rw [if_pos ht, enumFold_of_nodup l t 0 none hnd ht, Nat.zero_add]
  · rw [if_neg ht, enumFold_of_not_mem l t 0 none ht]

/-- A tag absent from the node list has no index (the KeyError case). -/
lemma nodeTagToIndex_eq_none (l : List Int) (t : Int) (h : t ∉ l) :
    nodeTagToIndex l t = none := by
  unfold nodeTagToIndex
  rw [List.enum_eq_enumFrom]
  exact enumFold_of_not_mem l t 0 none h

/-- Dict insert-or-replace over a block of assignments that all carry the
same group tag: the key ends up at that tag exactly when it is in the block. -/
lemma groupFold_map_tag (l : List Int) (t e : Int) (acc : Option Int) :
    ((l.map fun x => (x, t)).foldl
        (fun acc p => if p.1 = e then some p.2 else acc) acc)
      = if e ∈ l then some t else acc := by
  induction l generalizing acc with
  | nil => simp
  | cons x xs ih =>
    rw [List.map_cons, List.foldl_cons, ih]
    by_cases hm : e ∈ xs
    · simp [hm]
    · by_cases hx : x = e
      · subst hx
        simp [hm]
      · have hne : e ∉ x :: xs := by
          simp only [List.mem_cons, not_or]
          exact ⟨fun h => hx h.symm, hm⟩
        rw [if_neg hm, if_neg hx, if_neg hne]

/-- Dict insert-or-replace over the flattened assignments of one physical
group (all entities, all their elements): the key ends up at the group's
tag exactly when some entity of the group owns it. -/
lemma groupFold_flatMap_tag (ents : List Int) (f : Int → List Int) (t e : Int)
    (acc : Option Int) :
    ((ents.flatMap fun ent => (f ent).map fun x => (x, t)).foldl
        (fun acc p => if p.1 = e then some p.2 else acc) acc)
      = if e ∈ ents.flatMap f then some t else acc := by
  induction ents generalizing acc with
  | nil => simp
  | cons a as ih =>
    rw [List.flatMap_cons, List.foldl_append, groupFold_map_tag, ih,
      List.flatMap_cons]
    by_cases hm : e ∈ as.flatMap f
    · simp [hm, List.mem_append]
    · by_cases ha : e ∈ f a <;> simp [hm, ha, List.mem_append]

/-- `min`/`max` of an empty sequence raise, so normalization fails. -/
lemma normalizedRegions_nil : normalizedRegions [] = none := rfl

/-- With a single distinct raw value the `min == max` branch is taken and
every normalized value is the constant 1.0. -/
lemma normalizedRegions_of_all_eq (rv : List Int) (c : Int) (hne : rv ≠ [])
    (h : ∀ x ∈ rv, x = c) :
    normalizedRegions rv = some (rv.map fun _ => (1 : ℚ)) := by
  obtain ⟨hmin, hmax⟩ := min?_max?_of_all_eq hne h
  simp [normalizedRegions, hmin, hmax]

/-- Inversion of a successful conversion: there is a first block, its
connectivity remapped successfully, normalization succeeded, and the grid is
built from those parts. -/
lemma gmsh2VTU_some_inv (m : GmshModel) (g : VTUGrid)
    (hg : gmsh2VTU m = some g) :
    ∃ ty tags nts ordered nr,
      m.elemBlocks.head? = some (ty, tags, nts) ∧
      orderedElemNodeTags m.nodeTags nts = some ordered ∧
      normalizedRegions (regionValues m tags) = some nr ∧
      g = { points := vtk_points m.nodeTags m.coords
            cells := buildCells ty tags.length ordered
            regionField := nr } := by
  unfold gmsh2VTU at hg
  cases hb : m.elemBlocks.head? with
  | none => rw [hb] at hg; cases hg
  | some b =>
    rw [hb, Option.some_bind] at hg
    obtain ⟨ty, tags, nts⟩ := b
    unfold convertBlock at hg
    cases ho : orderedElemNodeTags m.nodeTags nts with
    | none => rw [ho] at hg; cases hg
    | some ordered =>
      rw [ho, Option.some_bind] at hg
      cases hn : normalizedRegions (regionValues m tags) with
      | none => rw [hn] at hg; cases hg
      | some nr =>
        rw [hn, Option.map_some'] at hg
        exact ⟨ty, tags, nts, ordered, nr, rfl, ho, hn, (Option.some.inj hg).symm⟩

/-- If every raw region value of the converted block is `c`, the attached
scalar field is constantly 1.0. -/
lemma regionField_one_of_const (m : GmshModel) (g : VTUGrid) (tags : List Int)
    (c : Int) (hb : ∃ ty nts, m.elemBlocks.head? = some (ty, tags, nts))
    (hall : ∀ v ∈ regionValues m tags, v = c) (hg : gmsh2VTU m = some g) :
    ∀ x ∈ g.regionField, x = 1 := by
  obtain ⟨ty, tags', nts, ordered, nr, hb', ho, hn, rfl⟩ := gmsh2VTU_some_inv m g hg
  obtain ⟨ty0, nts0, hb0⟩ := hb
  rw [hb0] at hb'
  obtain ⟨rfl, rfl, rfl⟩ : ty0 = ty ∧ tags = tags' ∧ nts0 = nts := by
    have h := Option.some.inj hb'
    exact ⟨congrArg Prod.fst h, congrArg (fun p => p.2.1) h, congrArg (fun p => p.2.2) h⟩
  have htags : tags ≠ [] := by
    intro h
    subst h
    rw [show regionValues m [] = [] from rfl, normalizedRegions_nil] at hn
    cases hn
  have hrvne : regionValues m tags ≠ [] := by
    simpa [regionValues] using htags
  rw [normalizedRegions_of_all_eq _ c hrvne hall] at hn
  obtain rfl := Option.some.inj hn
  intro x hx
  simp only [List.mem_map] at hx
  obtain ⟨r, _, rfl⟩ := hx
  rfl

/-! ### The claims -/

/-- C1: the claim says that for an element type outside {Triangle (2),
Quadrilateral (3)} the conversion fails with a reported
UnsupportedElementType error.  The code does not: on `lineMesh`, whose only
block has element type 1, `gmsh2VTU` silently emits no cell and returns a
grid (with a region value still recorded for the skipped element). -/
theorem gmsh2VTU_lineMesh_returns_grid :
    gmsh2VTU lineMesh =
      some { points := [(0, 0, 0), (1, 0, 0)]
             cells := []
             regionField := [1] } := by
  rfl

/-- C2: the claim says the length of the Region array always equals the
number of emitted cells whenever a grid is returned.  On `lineMesh` the code
returns a grid with one region value and zero cells. -/
theorem gmsh2VTU_lineMesh_region_cell_mismatch :
    ∃ g, gmsh2VTU lineMesh = some g ∧
      g.regionField.length = 1 ∧ g.cells.length = 0 :=
  ⟨_, rfl, rfl, rfl⟩

/-- C4: the claim expects 2 cells (one quad, one triangle) with normalized
regions 0.0 and 1.0 on the spec's example mesh.  The code reads only the
first per-type block, so it emits a single quad cell and the degenerate
constant field 1.0. -/
theorem gmsh2VTU_exampleMesh_single_block :
    gmsh2VTU exampleMesh =
      some { points := [(0, 0, 0), (1, 0, 0), (1, 1, 0), (0, 1, 0), (2, 0, 0)]
             cells := [(CellType.quad, [0, 1, 2, 3])]
             regionField := [1] } := by
  rfl

/-- C5: the claim says that whenever any element references a node
identifier absent from the node index, the whole conversion aborts with a
MissingNodeReference error and no element is silently skipped.  The code
resolves connectivity only for the first per-type block: on
`laterBlockMissingMesh`, whose second block's quadrilateral references node
99 (absent from the node index), the conversion returns a grid and the
offending element is silently dropped.  (A dangling reference in the first
block does abort, as on `missingNodeMesh`, whose conversion is `none`.) -/
theorem gmsh2VTU_later_block_missing_node_ignored :
    (99 : Int) ∉ laterBlockMissingMesh.nodeTags ∧
    (99 : Int) ∈ (laterBlockMissingMesh.elemBlocks.getD 1 (0, [], [])).2.2 ∧
    gmsh2VTU laterBlockMissingMesh =
      some { points := [(0, 0, 0), (1, 0, 0), (0, 1, 0)]
             cells := [(CellType.triangle, [0, 1, 2])]
             regionField := [1] } ∧
    gmsh2VTU missingNodeMesh = none :=
  ⟨by decide, by decide, rfl, rfl⟩

/-- C10: a mesh whose first per-type element block has an empty element-tag
list makes the conversion raise (Python: `min()` of an empty sequence)
instead of returning a grid with zero cells. -/
theorem gmsh2VTU_empty_block_aborts (m : GmshModel) (ty : Nat)
    (nts : List Int) (hb : m.elemBlocks.head? = some (ty, [], nts)) :
    gmsh2VTU m = none := by
  unfold gmsh2VTU
  rw [hb, Option.some_bind]
  unfold convertBlock
  cases ho : orderedElemNodeTags m.nodeTags nts with
  | none => rfl
  | some ordered => rfl

/-- C10 witness: `emptyBlockMesh` has a (triangle-typed) first block with no
elements, and the conversion returns no grid. -/
theorem gmsh2VTU_empty_block_aborts_witness :
    gmsh2VTU emptyBlockMesh = none :=
  gmsh2VTU_empty_block_aborts emptyBlockMesh 2 [] (by rfl)

/-- C3: when the raw region values are not all equal (`min ≠ max`), the
normalized field is exactly `1 - (raw - min) / (max - min)` per value, every
normalized value lies in [0, 1], raw `min` normalizes to 1.0, and raw `max`
normalizes to 0.0. -/
theorem normalizedRegions_formula (rv : List Int) (mn mx : Int)
    (hmn : rv.min? = some mn) (hmx : rv.max? = some mx) (hne : mn ≠ mx) :
    normalizedRegions rv =
      some (rv.map fun r : ℤ => 1 - ((r : ℚ) - (mn : ℚ)) / ((mx : ℚ) - (mn : ℚ))) ∧
    (∀ x ∈ rv.map fun r : ℤ => 1 - ((r : ℚ) - (mn : ℚ)) / ((mx : ℚ) - (mn : ℚ)),
        0 ≤ x ∧ x ≤ 1) ∧
    (∀ r ∈ rv, r = mn →
        1 - ((r : ℚ) - (mn : ℚ)) / ((mx : ℚ) - (mn : ℚ)) = 1) ∧
    (∀ r ∈ rv, r = mx →
        1 - ((r : ℚ) - (mn : ℚ)) / ((mx : ℚ) - (mn : ℚ)) = 0) := by
  obtain ⟨hmnmem, hmnle⟩ := int_min?_iff.mp hmn
  obtain ⟨hmxmem, hlemx⟩ := int_max?_iff.mp hmx
  have hlt : mn < mx := lt_of_le_of_ne (hmnle mx hmxmem) hne
  have hq : (0 : ℚ) < (mx : ℚ) - (mn : ℚ) := by
    rw [sub_pos]
    exact_mod_cast hlt
  refine ⟨?_, ?_, ?_, ?_⟩
  · simp [normalizedRegions, hmn, hmx, hne]
  · intro x hx
    simp only [List.mem_map] at hx
    obtain ⟨r, hr, rfl⟩ := hx
    have h1 : (mn : ℚ) ≤ (r : ℚ) := by exact_mod_cast hmnle r hr
    have h2 : (r : ℚ) ≤ (mx : ℚ) := by exact_mod_cast hlemx r hr
    have hd0 : 0 ≤ ((r : ℚ) - (mn : ℚ)) / ((mx : ℚ) - (mn : ℚ)) :=
      div_nonneg (by linarith) hq.le
    have hd1 : ((r : ℚ) - (mn : ℚ)) / ((mx : ℚ) - (mn : ℚ)) ≤ 1 :=
      (div_le_one hq).mpr (by linarith)
    constructor <;> linarith
  · intro r _ hr
    subst hr
    simp
  · intro r _ hr
    subst hr
    rw [div_self hq.ne']
    ring

/-- C3 witness: on raw values [2, 5] (min 2, max 5) normalization yields
[1.0, 0.0]. -/
theorem normalizedRegions_formula_witness :
    normalizedRegions [2, 5] = some [1, 0] :=
  ((normalizedRegions_formula [2, 5] 2 5 (by decide) (by decide)
    (by decide)).1).trans (by norm_num)

/-- C6: when every raw region value of the converted block is the same
(including the all-unassigned, all −1 case), every value of the attached
Region field equals exactly 1.0. -/
theorem gmsh2VTU_degenerate_collapse (m : GmshModel) (g : VTUGrid) (ty : Nat)
    (tags nts : List Int) (c : Int)
    (hb : m.elemBlocks.head? = some (ty, tags, nts))
    (hall : ∀ v ∈ regionValues m tags, v = c)
    (hg : gmsh2VTU m = some g) :
    ∀ x ∈ g.regionField, x = 1 :=
  regionField_one_of_const m g tags c ⟨ty, nts, hb⟩ hall hg

/-- C6 witness: `triMesh` has a single triangle whose raw region value is
the sentinel −1, and the first entry of the produced Region field is 1.0. -/
theorem gmsh2VTU_degenerate_collapse_witness :
    triGrid.regionField.getD 0 0 = 1 :=
  gmsh2VTU_degenerate_collapse triMesh triGrid 2 [7] [1, 2, 3] (-1)
    (by rfl) (by decide) (by rfl) (triGrid.regionField.getD 0 0) (by decide)

/-- C7: with two physical groups processed in order G1 then G2, any element
owned (through some entity) by G2 resolves to G2's tag in the region map,
regardless of G1's tag: the later write wins. -/
theorem physicalGroupMap_last_write_wins (m : GmshModel) (d1 d2 : Nat)
    (t1 t2 E : Int) (hgs : m.physicalGroups = [(d1, t1), (d2, t2)])
    (hE : E ∈ (m.entitiesForPhysicalGroup d2 t2).flatMap (m.entityElementTags d2)) :
    physicalGroupMap m E = some t2 := by
  unfold physicalGroupMap physicalGroupAssignments
  rw [hgs, List.flatMap_cons, List.flatMap_cons, List.flatMap_nil,
    List.append_nil, List.foldl_append, groupFold_flatMap_tag, if_pos hE]

/-- C7 witness: in `exampleMesh`, element 101 is owned by the second group
(tag 2) and resolves to tag 2. -/
theorem physicalGroupMap_last_write_wins_witness :
    physicalGroupMap exampleMesh 101 = some 2 :=
  physicalGroupMap_last_write_wins exampleMesh 2 2 5 2 101 (by rfl) (by decide)

/-- C8: with no duplicate node identifiers, the node index is a bijection
(tag t maps to position i exactly when t is the i-th supplied tag, and the
positions hit are exactly [0, |ids|)), and position i of the point array
holds the coordinates `coords[3i], coords[3i+1], coords[3i+2]` of the i-th
supplied node. -/
theorem nodeTagToIndex_bijective (nodeTags : List Int) (coords : List ℚ)
    (hnd : nodeTags.Nodup) (hlen : coords.length = 3 * nodeTags.length) :
    (∀ t i, nodeTagToIndex nodeTags t = some i ↔ nodeTags[i]? = some t) ∧
    (∀ i, (∃ t, nodeTagToIndex nodeTags t = some i) ↔ i < nodeTags.length) ∧
    (vtk_points nodeTags coords).length = nodeTags.length ∧
    (∀ i, i < nodeTags.length →
      ∃ x y z, coords[3 * i]? = some x ∧ coords[3 * i + 1]? = some y ∧
        coords[3 * i + 2]? = some z ∧
        (vtk_points nodeTags coords)[i]? = some (x, y, z)) := by
  have key : ∀ t i, nodeTagToIndex nodeTags t = some i ↔ nodeTags[i]? = some t := by
    intro t i
    rw [nodeTagToIndex_eq_of_nodup nodeTags t hnd]
    constructor
    · intro h
      by_cases ht : t ∈ nodeTags
      · rw [if_pos ht] at h
        obtain rfl : List.indexOf t nodeTags = i := Option.some.inj h
        have hlt : List.indexOf t nodeTags < nodeTags.length :=
          List.indexOf_lt_length.mpr ht
        rw [List.getElem?_eq_getElem hlt, List.getElem_indexOf hlt]
      · rw [if_neg ht] at h
        cases h
    · intro h
      obtain ⟨hi, hv⟩ := List.getElem?_eq_some_iff.mp h
      have ht : t ∈ nodeTags := hv ▸ List.getElem_mem hi
      rw [if_pos ht]
      have hlt : List.indexOf t nodeTags < nodeTags.length :=
        List.indexOf_lt_length.mpr ht
      have hsame : nodeTags[List.indexOf t nodeTags] = nodeTags[i] := by
        rw [List.getElem_indexOf hlt, hv]
      exact congrArg some ((List.Nodup.getElem_inj_iff hnd).mp hsame)
  refine ⟨key, ?_, ?_, ?_⟩
  · intro i
    constructor
    · rintro ⟨t, ht⟩
      obtain ⟨hi, _⟩ := List.getElem?_eq_some_iff.mp ((key t i).mp ht)
      exact hi
    · intro hi
      exact ⟨nodeTags[i], (key _ i).mpr (List.getElem?_eq_getElem hi)⟩
  · simp [vtk_points]
  · intro i hi
    have h0 : 3 * i < coords.length := by omega
    have h1 : 3 * i + 1 < coords.length := by omega
    have h2 : 3 * i + 2 < coords.length := by omega
    refine ⟨coords[3 * i], coords[3 * i + 1], coords[3 * i + 2],
      List.getElem?_eq_getElem h0, List.getElem?_eq_getElem h1,
      List.getElem?_eq_getElem h2, ?_⟩
    rw [vtk_points, List.getElem?_map, List.getElem?_range hi, Option.map_some']
    rw [List.getD_eq_getElem coords 0 h0, List.getD_eq_getElem coords 0 h1,
      List.getD_eq_getElem coords 0 h2]

/-- C8 witness: for nodes with tags 10 and 11 and six coordinates, tag 11
maps to position 1 and the point array has one point per node. -/
theorem nodeTagToIndex_bijective_witness :
    nodeTagToIndex [10, 11] 11 = some 1 ∧
    (vtk_points [10, 11] [0, 0, 0, 1, 0, 0]).length = 2 := by
  have T := nodeTagToIndex_bijective [10, 11] [0, 0, 0, 1, 0, 0]
    (by decide) (by decide)
  exact ⟨(T.1 11 1).mpr (by decide), T.2.2.1.trans (by decide)⟩

/-- C9: with no physical groups at all, every element's raw region value is
the sentinel −1, and whenever a grid is returned its Region field is
constantly 1.0. -/
theorem gmsh2VTU_no_groups_sentinel (m : GmshModel) (g : VTUGrid)
    (hpg : m.physicalGroups = []) (hg : gmsh2VTU m = some g) :
    (∀ tags, ∀ v ∈ regionValues m tags, v = -1) ∧
    ∀ x ∈ g.regionField, x = 1 := by
  have hraw : ∀ tags, ∀ v ∈ regionValues m tags, v = (-1 : Int) := by
    intro tags v hv
    simp only [regionValues, List.mem_map] at hv
    obtain ⟨e, _, rfl⟩ := hv
    have hmap : physicalGroupMap m e = none := by
      unfold physicalGroupMap physicalGroupAssignments
      rw [hpg, List.flatMap_nil]
      rfl
    rw [hmap]
    rfl
  refine ⟨hraw, ?_⟩
  obtain ⟨ty, tags, nts, ordered, nr, hb, ho, hn, rfl⟩ := gmsh2VTU_some_inv m g hg
  exact regionField_one_of_const m _ tags (-1) ⟨ty, nts, hb⟩ (hraw tags) hg

/-- C9 witness: `triMesh` has no physical groups; its element's raw region
value is −1 and the first entry of the produced Region field is 1.0. -/
theorem gmsh2VTU_no_groups_sentinel_witness :
    regionValues triMesh [7] = [-1] ∧ triGrid.regionField.getD 0 0 = 1 := by
  have T := gmsh2VTU_no_groups_sentinel triMesh triGrid (by rfl) (by rfl)
  exact ⟨by decide, T.2 (triGrid.regionField.getD 0 0) (by decide)⟩

end NetgenExamples
